import Mathlib

/-!
Verification of the EWC continual-learning strategy in `src/approach/oewc.py`
(class `Appr`).  The module keeps two per-parameter maps over the shared
backbone (`self.model.model`): `older_params` (the Snapshot of parameter
values at the end of the previous task) and `fisher` (the Importance Map, a
diagonal Fisher-information estimate).  We embed tensors as flat lists of
rationals and Python dicts keyed by parameter name as association lists,
preserving insertion order.  The torch library itself (autograd, optimizers)
is external to the repository; its effect on the training state is made
explicit: a backward pass writes gradient buffers computed from the current
parameters and the batch, which we model by an abstract gradient function.
-/

namespace OEWC

/-- A tensor, flattened to a list of rational scalars. -/
abbrev Tensor := List ℚ

/-- A Python dict from parameter name to tensor (`{n: p for n, p in ...}`),
kept as an insertion-ordered association list. -/
abbrev ParamMap := List (String × Tensor)

/-- `__init__` line 31: `self.fisher = {n: torch.zeros(p.shape) ...}` — a
zero tensor of the same shape for every (requires-grad) backbone parameter.
The same expression re-appears at line 76 to initialise the local
accumulator of `compute_fisher_matrix_diag`. -/
def fisherInit (params : ParamMap) : ParamMap :=
  params.map (fun np => (np.1, np.2.map (fun _ => (0 : ℚ))))

/-- The mutable training state of the model that the estimator touches:
parameter values, gradient buffers and the train/eval mode flag.  The
backbone parameters are the entries of `params`. -/
structure ModelState where
  params : ParamMap
  grads : ParamMap
  training : Bool
deriving DecidableEq

/-- The data loader, as consumed by `compute_fisher_matrix_diag`: the batch
sizes (`len(targets)`) of the batches it yields in order, together with its
configured `batch_size` and `len(loader.dataset)`. -/
structure Loader where
  batches : List ℕ
  batch_size : ℕ
  dataset_len : ℕ
deriving DecidableEq

/-- A loader built with PyTorch defaults (`drop_last=False`): the batch
sizes sum to the dataset length, there are `ceil(len/batch_size)` batches,
and no batch exceeds `batch_size`. -/
def IsDefaultLoader (L : Loader) : Prop :=
  L.batches.sum = L.dataset_len ∧
  L.batches.length = (L.dataset_len + L.batch_size - 1) / L.batch_size ∧
  ∀ b ∈ L.batches, b ≤ L.batch_size

instance (L : Loader) : Decidable (IsDefaultLoader L) := by
  unfold IsDefaultLoader; infer_instance

/-- Lines 79-80: the number of batches the estimator plans to consume:
`num_samples // batch_size + 1` when `num_samples > 0`, otherwise
`len(dataset) // batch_size` (Python floor division on naturals). -/
def n_samples_batches (num_samples : ℤ) (batch_size dataset_len : ℕ) : ℕ :=
  if 0 < num_samples then num_samples.toNat / batch_size + 1
  else dataset_len / batch_size

/-- The number of batches `itertools.islice(trn_loader, n_samples_batches)`
at line 83 actually yields: `islice` stops early when the loader is
exhausted. -/
def fisherBatchesConsumed (num_samples : ℤ) (L : Loader) : ℕ :=
  (L.batches.take (n_samples_batches num_samples L.batch_size L.dataset_len)).length

/-- Line 105: the divisor `n_samples = n_samples_batches * batch_size`
applied to the accumulated squared gradients. -/
def fisherDivisor (num_samples : ℤ) (L : Loader) : ℕ :=
  n_samples_batches num_samples L.batch_size L.dataset_len * L.batch_size

/-- Lines 101-103: `fisher[n] += p.grad.pow(2) * len(targets)` for every
backbone parameter whose gradient buffer is populated; a parameter with no
gradient (`p.grad is None`) is left untouched.  The accumulator `fisher`
was initialised (line 76) with exactly the requires-grad backbone
parameters, so iterating its entries is the dict update the loop performs. -/
def accumFisher (fisher grads : ParamMap) (nTargets : ℕ) : ParamMap :=
  fisher.map (fun nf =>
    match grads.lookup nf.1 with
    | some g => (nf.1, (nf.2.zip g).map (fun x => x.1 + x.2 ^ 2 * (nTargets : ℚ)))
    | none => nf)

/-- The batch loop of lines 83-103.  Each step performs
`self.optimizer.zero_grad(); loss.backward()` — i.e. it overwrites the
gradient buffers with the gradients of the (sampling-type dependent)
cross-entropy loss at the current parameters, which torch computes and we
abstract as `gradFn params batchIndex` — and then accumulates the squared
gradients weighted by the batch size.  No statement in the loop writes to
the parameter values. -/
def fisherLoop (gradFn : ParamMap → ℕ → ParamMap) :
    ModelState → ParamMap → List (ℕ × ℕ) → ModelState × ParamMap
  | st, fisher, [] => (st, fisher)
  | st, fisher, b :: rest =>
    let st1 : ModelState := { st with grads := gradFn st.params b.1 }
    fisherLoop gradFn st1 (accumFisher fisher st1.grads b.2) rest

/-- `compute_fisher_matrix_diag` (lines 74-107): initialise a zero
accumulator, put the model in training mode (line 82), consume
`n_samples_batches` batches accumulating squared gradients, then divide
every entry by `n_samples_batches * batch_size`.  Returns the final model
state alongside the estimated map. -/
def compute_fisher_matrix_diag (gradFn : ParamMap → ℕ → ParamMap)
    (num_samples : ℤ) (L : Loader) (st0 : ModelState) : ModelState × ParamMap :=
  let k := n_samples_batches num_samples L.batch_size L.dataset_len
  let res := fisherLoop gradFn { st0 with training := true }
    (fisherInit st0.params) (L.batches.take k).enum
  (res.1, res.2.map (fun nf =>
    (nf.1, nf.2.map (fun x => x / (fisherDivisor num_samples L : ℚ)))))

/-- Lines 137-141: the fusion weight used for every key.  It is the
configured constant `selfAlpha` (line 141) unless that is the sentinel
`-1`, in which case line 138 computes `sum(task_cls[:t]) / sum(task_cls)`.
The loop recomputes the same value at every iteration; it is hoisted here
because it does not depend on the key. -/
def effAlpha (selfAlpha : ℚ) (t : ℕ) (task_cls : List ℕ) : ℚ :=
  if selfAlpha = -1 then
    ((task_cls.take t).map (fun k : ℕ => (k : ℚ))).sum /
      ((task_cls.map (fun k : ℕ => (k : ℚ))).sum)
  else selfAlpha

/-- Lines 135-141: the fusion loop `for n in self.fisher.keys(): ...`,
rebuilding each Importance-Map entry as
`alpha * self.fisher[n] + (1 - alpha) * curr_fisher[n]` with
`alpha = effAlpha`.  A key of `fisher` missing from `curr` is a Python
`KeyError`, modelled as `none`.  Both maps are built with the backbone
parameters' own shapes (lines 31 and 76), so their entries combine at
equal lengths; a length mismatch is modelled as `none` here (torch's
length-1 broadcasting of this sum is not modelled, as the equal-shape
invariant of the two maps makes that branch unreachable). -/
def fuseFisher (selfAlpha : ℚ) (t : ℕ) (task_cls : List ℕ) (curr : ParamMap) :
    ParamMap → Option ParamMap
  | [] => some []
  | nf :: rest =>
    match curr.lookup nf.1 with
    | none => none
    | some c =>
      if nf.2.length = c.length then
        match fuseFisher selfAlpha t task_cls curr rest with
        | some restRes =>
          some ((nf.1, (nf.2.zip c).map (fun z =>
            effAlpha selfAlpha t task_cls * z.1
              + (1 - effAlpha selfAlpha t task_cls) * z.2)) :: restRes)
        | none => none
      else none

/-- `post_train_process` (lines 126-141): snapshot the current backbone
parameters into `older_params` (line 130), estimate the Fisher diagonal on
the training loader (line 133), and fuse it into the persisted Importance
Map (lines 135-141).  Returns the new snapshot, the final model state and
the fused map. -/
def post_train_process (selfAlpha : ℚ) (t : ℕ) (task_cls : List ℕ)
    (gradFn : ParamMap → ℕ → ParamMap) (num_samples : ℤ) (L : Loader)
    (st : ModelState) (fisher : ParamMap) :
    Option (ParamMap × ModelState × ParamMap) :=
  let older := st.params
  let res := compute_fisher_matrix_diag gradFn num_samples L st
  match fuseFisher selfAlpha t task_cls res.2 fisher with
  | some fisher2 => some (older, res.1, fisher2)
  | none => none

/-- A torch element-wise binary operation on flattened tensors, with
torch's 1-D broadcasting: equal lengths combine pairwise, a length-1
operand is stretched to the other's length, and any other length mismatch
is a torch error (`none`). -/
def bcast2 (f : ℚ → ℚ → ℚ) (a b : Tensor) : Option Tensor :=
  if a.length = b.length then some ((a.zip b).map (fun x => f x.1 x.2))
  else if a.length = 1 then some (b.map (fun y => f (a.headD 0) y))
  else if b.length = 1 then some (a.map (fun x => f x (b.headD 0)))
  else none

/-- Line 159's per-parameter term
`torch.sum(self.fisher[n] * (p - self.older_params[n]).pow(2)) / 2`:
the subtraction and the multiplication each follow torch broadcasting
(`bcast2`), so a broadcastable shape mismatch silently computes a value
and only a non-broadcastable one is an error. -/
def entryPenalty (f p o : Tensor) : Option ℚ :=
  (bcast2 (fun pi oi => (pi - oi) ^ 2) p o).bind (fun d =>
    (bcast2 (fun fi di => fi * di) f d).map (fun prod => prod.sum / 2))

/-- Lines 155-159: the EWC quadratic penalty.  The loop walks the live
model's backbone parameters; a parameter whose name is not a key of the
Importance Map is silently skipped (`if n in self.fisher.keys()`); a name
present in the Importance Map but missing from the Snapshot raises a
`KeyError`, modelled as `none`; the per-parameter term itself follows
torch broadcasting via `entryPenalty`. -/
def ewcPenalty (fisher older : ParamMap) : ParamMap → Option ℚ
  | [] => some 0
  | np :: rest =>
    match fisher.lookup np.1 with
    | none => ewcPenalty fisher older rest
    | some f =>
      match older.lookup np.1 with
      | none => none
      | some o =>
        match entryPenalty f np.2 o with
        | none => none
        | some s => (ewcPenalty fisher older rest).map (fun r => s + r)

/-- `torch.cat(outputs, dim=1)`: per-example concatenation of the per-head
logit rows.  Each head's output is a batch (list of rows). -/
def catDim1 (outputs : List (List (List ℚ))) : List (List ℚ) :=
  match outputs.head? with
  | none => []
  | some o0 => (List.range o0.length).map
      (fun i => (outputs.map (fun o => o.getD i [])).flatten)

/-- `criterion` (lines 151-164).  `ce` is torch's
`cross_entropy : logits rows → integer targets → scalar` (external
library).  `loss = 0`; if `t > 0`, add `lamb` times the quadratic penalty;
then add cross-entropy over all concatenated heads against the raw targets
when exemplars are present (`len(self.exemplars_dataset) > 0`), else over
the current head `outputs[t]` against `targets - task_offset[t]`. -/
def criterion (ce : List (List ℚ) → List ℤ → ℚ) (t : ℕ) (lamb : ℚ)
    (fisher older params : ParamMap) (numExemplars : ℕ)
    (outputs : List (List (List ℚ))) (targets : List ℤ)
    (task_offset : List ℤ) : Option ℚ :=
  (if 0 < t then (ewcPenalty fisher older params).map (fun r => lamb * r)
   else some 0).map
    (fun loss =>
      if 0 < numExemplars then loss + ce (catDim1 outputs) targets
      else loss + ce (outputs.getD t [])
        (targets.map (fun y => y - task_offset.getD t 0)))

/-- The classification term of `criterion` (lines 161-164), named for use
in theorem statements. -/
def classTerm (ce : List (List ℚ) → List ℤ → ℚ) (t : ℕ) (numExemplars : ℕ)
    (outputs : List (List (List ℚ))) (targets : List ℤ)
    (task_offset : List ℤ) : ℚ :=
  if 0 < numExemplars then ce (catDim1 outputs) targets
  else ce (outputs.getD t [])
    (targets.map (fun y => y - task_offset.getD t 0))

/-- Line 95: `torch.multinomial(probs, len(targets)).flatten()`.  For a
probability matrix with `nRows` rows, `torch.multinomial(probs, k)` draws
`k` samples from EVERY row, producing an `nRows × k` matrix; `flatten`
lays the draws out row-major.  The draw itself is stochastic, abstracted
by `samp row drawIndex`. -/
def multinomialPreds (samp : ℕ → ℕ → ℕ) (nRows numSamples : ℕ) : List ℕ :=
  ((List.range nRows).map (fun i => (List.range numSamples).map (samp i))).flatten

/-! ### Aligned views of the parameter maps

The three dictionaries walked by `criterion` (Importance Map, Snapshot,
live parameters) and the two walked by the fusion loop share their key set
and per-key shapes in every run the orchestrator produces.  To quantify
over such aligned families we use a single list of entries carrying, per
parameter name, the per-element scalars of each map, and project the
individual dictionaries out of it. -/

/-- Per-parameter aligned data for `criterion`: for each element of the
parameter, `(importance, current value, snapshot value)`. -/
abbrev TripleEntries := List (String × List (ℚ × ℚ × ℚ))

def fisherOf3 (E : TripleEntries) : ParamMap :=
  E.map (fun e => (e.1, e.2.map (fun z => z.1)))

def paramsOf3 (E : TripleEntries) : ParamMap :=
  E.map (fun e => (e.1, e.2.map (fun z => z.2.1)))

def olderOf3 (E : TripleEntries) : ParamMap :=
  E.map (fun e => (e.1, e.2.map (fun z => z.2.2)))

/-- Per-parameter aligned data for the fusion loop: for each element,
`(old importance, freshly estimated importance)`. -/
abbrev PairEntries := List (String × List (ℚ × ℚ))

def oldOf2 (E : PairEntries) : ParamMap :=
  E.map (fun e => (e.1, e.2.map (fun z => z.1)))

def curOf2 (E : PairEntries) : ParamMap :=
  E.map (fun e => (e.1, e.2.map (fun z => z.2)))

/-- The names of an aligned family are pairwise distinct (Python dict keys). -/
def NamesNodup {α : Type} (E : List (String × α)) : Prop :=
  (E.map (fun e => e.1)).Nodup

instance {α : Type} (E : List (String × α)) : Decidable (NamesNodup E) := by
  unfold NamesNodup; infer_instance

/-- The element-wise fusion `alpha * old + (1 - alpha) * curr` on an
aligned family, named for use in theorem statements. -/
def fusedAligned (w : ℚ) (E : PairEntries) : ParamMap :=
  E.map (fun e => (e.1, e.2.map (fun z => w * z.1 + (1 - w) * z.2)))

/-- All values of a parameter map are non-negative. -/
def MapNonneg (m : ParamMap) : Prop :=
  ∀ e ∈ m, ∀ x ∈ e.2, 0 ≤ x

instance (m : ParamMap) : Decidable (MapNonneg m) := by
  unfold MapNonneg; infer_instance

/-- Looking a member's name up in a map projected off an aligned family
with distinct names finds that member's projection. -/
lemma lookup_aligned {α β : Type} (g : String × α → β) :
    ∀ (E : List (String × α)), NamesNodup E → ∀ e ∈ E,
      (E.map (fun x => (x.1, g x))).lookup e.1 = some (g e)
  | [], _, e, he => absurd he (List.not_mem_nil e)
  | a :: E, h, e, he => by
    rcases List.nodup_cons.mp h with ⟨ha, hE⟩
    rcases List.mem_cons.mp he with rfl | he'
    · simp [List.lookup]
    · have hne : e.1 ≠ a.1 := fun hcontra => by
        exact ha (List.mem_map.mpr ⟨e, he', hcontra⟩)
      have : (e.1 == a.1) = false := beq_eq_false_iff_ne.mpr hne
      simp only [List.map_cons, List.lookup, this]
      exact lookup_aligned g E hE e he'

/-- Zipping two projections of a pair list rebuilds the list. -/
lemma zip_proj_pair (l : List (ℚ × ℚ)) :
    (l.map (fun z => z.1)).zip (l.map (fun z => z.2)) = l := by
  rw [List.zip_map']
  exact List.map_id l

/-- On three projections of one aligned element list (equal lengths), the
per-parameter term evaluates to `sum (importance * drift^2) / 2`. -/
lemma entryPenalty_aligned (l : List (ℚ × ℚ × ℚ)) :
    entryPenalty (l.map (fun z => z.1)) (l.map (fun z => z.2.1))
      (l.map (fun z => z.2.2))
      = some ((l.map (fun z => z.1 * (z.2.1 - z.2.2) ^ 2)).sum / 2) := by
  unfold entryPenalty
  have h1 : bcast2 (fun pi oi => (pi - oi) ^ 2) (l.map (fun z => z.2.1))
      (l.map (fun z => z.2.2)) = some (l.map (fun z => (z.2.1 - z.2.2) ^ 2)) := by
    unfold bcast2
    rw [if_pos (by rw [List.length_map, List.length_map])]
    rw [List.zip_map', List.map_map]
    rfl
  rw [h1, Option.some_bind]
  have h2 : bcast2 (fun fi di => fi * di) (l.map (fun z => z.1))
      (l.map (fun z => (z.2.1 - z.2.2) ^ 2))
      = some (l.map (fun z => z.1 * (z.2.1 - z.2.2) ^ 2)) := by
    unfold bcast2
    rw [if_pos (by rw [List.length_map, List.length_map])]
    rw [List.zip_map', List.map_map]
    rfl
  rw [h2, Option.map_some']

/-- On an aligned family whose names all resolve in `fisher` and `older`
with the matching projections, the penalty loop of lines 155-159 returns
half the sum over parameters of `sum (importance * drift^2)`. -/
lemma ewcPenalty_aligned (fisher older : ParamMap) :
    ∀ E : TripleEntries,
      (∀ e ∈ E, fisher.lookup e.1 = some (e.2.map (fun z => z.1)) ∧
                older.lookup e.1 = some (e.2.map (fun z => z.2.2))) →
      ewcPenalty fisher older (paramsOf3 E)
        = some ((E.map (fun e =>
            (e.2.map (fun z => z.1 * (z.2.1 - z.2.2) ^ 2)).sum)).sum / 2)
  | [], _ => by simp [ewcPenalty, paramsOf3]
  | e :: E, h => by
    have hfe := (h e (List.mem_cons_self e E)).1
    have hoe := (h e (List.mem_cons_self e E)).2
    have ih := ewcPenalty_aligned fisher older E
      (fun x hx => h x (List.mem_cons_of_mem e hx))
    simp only [paramsOf3, List.map_cons] at ih ⊢
    unfold ewcPenalty
    rw [hfe, hoe]
    simp only [entryPenalty_aligned e.2, ih, Option.map_some', List.map_cons,
      List.sum_cons, Option.some.injEq]
    ring

/-- On an aligned family whose names all resolve in `curr` with the fresh
projection, the fusion loop of lines 135-141 rebuilds every entry with the
effective fusion weight (the configured alpha, or the class-proportional
ratio when the sentinel `-1` is configured). -/
lemma fuseFisher_aligned (selfAlpha : ℚ) (t : ℕ) (task_cls : List ℕ)
    (curr : ParamMap) :
    ∀ E : PairEntries,
      (∀ e ∈ E, curr.lookup e.1 = some (e.2.map (fun z => z.2))) →
      fuseFisher selfAlpha t task_cls curr (oldOf2 E)
        = some (fusedAligned (effAlpha selfAlpha t task_cls) E)
  | [], _ => by simp [fuseFisher, oldOf2, fusedAligned]
  | e :: E, h => by
    have hce := h e (List.mem_cons_self e E)
    have ih := fuseFisher_aligned selfAlpha t task_cls curr E
      (fun x hx => h x (List.mem_cons_of_mem e hx))
    simp only [oldOf2, List.map_cons]
    unfold fuseFisher
    rw [hce]
    simp only [List.length_map, if_pos]
    rw [show (E.map (fun e => (e.1, e.2.map (fun z => z.1)))) = oldOf2 E
      from rfl, ih]
    simp [fusedAligned, zip_proj_pair]

/-- Specialisation of `lookup_aligned` to the fresh-estimate projection. -/
lemma lookup_curOf2 (E : PairEntries) (hE : NamesNodup E)
    (e : String × List (ℚ × ℚ)) (he : e ∈ E) :
    (curOf2 E).lookup e.1 = some (e.2.map (fun z => z.2)) := by
  show (E.map (fun x => (x.1, x.2.map (fun z => z.2)))).lookup e.1 = _
  exact lookup_aligned _ E hE e he

/-- Specialisation of `lookup_aligned` to the Importance-Map projection. -/
lemma lookup_fisherOf3 (E : TripleEntries) (hE : NamesNodup E)
    (e : String × List (ℚ × ℚ × ℚ)) (he : e ∈ E) :
    (fisherOf3 E).lookup e.1 = some (e.2.map (fun z => z.1)) := by
  show (E.map (fun x => (x.1, x.2.map (fun z => z.1)))).lookup e.1 = _
  exact lookup_aligned _ E hE e he

/-- Specialisation of `lookup_aligned` to the Snapshot projection. -/
lemma lookup_olderOf3 (E : TripleEntries) (hE : NamesNodup E)
    (e : String × List (ℚ × ℚ × ℚ)) (he : e ∈ E) :
    (olderOf3 E).lookup e.1 = some (e.2.map (fun z => z.2.2)) := by
  show (E.map (fun x => (x.1, x.2.map (fun z => z.2.2)))).lookup e.1 = _
  exact lookup_aligned _ E hE e he

/-- With weight 1 the fused family keeps the old values. -/
lemma fusedAligned_one (E : PairEntries) : fusedAligned 1 E = oldOf2 E := by
  unfold fusedAligned oldOf2
  have hfn : (fun z : ℚ × ℚ => (1 : ℚ) * z.1 + (1 - 1) * z.2)
      = fun z : ℚ × ℚ => z.1 := by
    funext z; ring
  simp only [hfn]

/-- With weight 0 the fused family takes the fresh values. -/
lemma fusedAligned_zero (E : PairEntries) : fusedAligned 0 E = curOf2 E := by
  unfold fusedAligned curOf2
  have hfn : (fun z : ℚ × ℚ => (0 : ℚ) * z.1 + (1 - 0) * z.2)
      = fun z : ℚ × ℚ => z.2 := by
    funext z; ring
  simp only [hfn]

/-- C2: in fixed-alpha mode (`alpha ≠ -1`) every Importance-Map entry is
updated to `alpha * old + (1 - alpha) * current`; hence with `alpha = 1`
the persisted map is unchanged by a new estimate, and with `alpha = 0` it
equals the new estimate exactly. -/
theorem claim2_fixed_alpha_fusion (α : ℚ) (t : ℕ) (task_cls : List ℕ)
    (E : PairEntries) (hα : α ≠ -1) (hE : NamesNodup E) :
    fuseFisher α t task_cls (curOf2 E) (oldOf2 E) = some (fusedAligned α E)
    ∧ (α = 1 → fusedAligned α E = oldOf2 E)
    ∧ (α = 0 → fusedAligned α E = curOf2 E) := by
  refine ⟨?_, fun h1 => by rw [h1]; exact fusedAligned_one E,
          fun h0 => by rw [h0]; exact fusedAligned_zero E⟩
  have hmain := fuseFisher_aligned α t task_cls (curOf2 E) E
    (fun e he => lookup_curOf2 E hE e he)
  rw [show effAlpha α t task_cls = α from if_neg hα] at hmain
  exact hmain

theorem claim2_fixed_alpha_fusion_witness :
    fuseFisher 1 0 [2] (curOf2 [("a", [((4 : ℚ), (6 : ℚ))])])
        (oldOf2 [("a", [((4 : ℚ), (6 : ℚ))])])
      = some (fusedAligned 1 [("a", [((4 : ℚ), (6 : ℚ))])])
    ∧ ((1 : ℚ) = 1 → fusedAligned 1 [("a", [((4 : ℚ), (6 : ℚ))])]
        = oldOf2 [("a", [((4 : ℚ), (6 : ℚ))])])
    ∧ ((1 : ℚ) = 0 → fusedAligned 1 [("a", [((4 : ℚ), (6 : ℚ))])]
        = curOf2 [("a", [((4 : ℚ), (6 : ℚ))])]) :=
  claim2_fixed_alpha_fusion 1 0 [2] [("a", [((4 : ℚ), (6 : ℚ))])]
    (by norm_num) (by decide)

/-- C3: in class-proportional mode (sentinel `alpha = -1`) the fusion
weight for task `t` is `(sum of class counts of tasks 0..t-1) / (sum of
all class counts seen)`; on the 3-task sequence with class counts
`[2, 3, 5]` the weight at `t = 2` is `(2+3)/(2+3+5) = 1/2`, so old
importance 10 and fresh importance 6 fuse to 8. -/
theorem claim3_class_proportional_alpha :
    (∀ (t : ℕ) (task_cls : List ℕ) (E : PairEntries), NamesNodup E →
      fuseFisher (-1) t task_cls (curOf2 E) (oldOf2 E)
        = some (fusedAligned
            (((task_cls.take t).map (fun k : ℕ => (k : ℚ))).sum /
              ((task_cls.map (fun k : ℕ => (k : ℚ))).sum)) E))
    ∧ ((([2, 3, 5] : List ℕ).take 2).map (fun k : ℕ => (k : ℚ))).sum /
        ((([2, 3, 5] : List ℕ).map (fun k : ℕ => (k : ℚ))).sum) = 1 / 2
    ∧ fuseFisher (-1) 2 [2, 3, 5] [("w", [6])] [("w", [10])]
        = some [("w", [8])] := by
  refine ⟨?_, by norm_num, by norm_num [fuseFisher, effAlpha, List.lookup]⟩
  intro t task_cls E hE
  have hmain := fuseFisher_aligned (-1) t task_cls (curOf2 E) E
    (fun e he => lookup_curOf2 E hE e he)
  rw [show effAlpha (-1) t task_cls
      = ((task_cls.take t).map (fun k : ℕ => (k : ℚ))).sum /
        ((task_cls.map (fun k : ℕ => (k : ℚ))).sum) from if_pos rfl] at hmain
  exact hmain

theorem claim3_class_proportional_alpha_witness :
    fuseFisher (-1) 2 [2, 3, 5] (curOf2 [("w", [((10 : ℚ), (6 : ℚ))])])
        (oldOf2 [("w", [((10 : ℚ), (6 : ℚ))])])
      = some (fusedAligned
          (((([2, 3, 5] : List ℕ).take 2).map (fun k : ℕ => (k : ℚ))).sum /
            ((([2, 3, 5] : List ℕ).map (fun k : ℕ => (k : ℚ))).sum))
          [("w", [((10 : ℚ), (6 : ℚ))])]) :=
  claim3_class_proportional_alpha.1 2 [2, 3, 5]
    [("w", [((10 : ℚ), (6 : ℚ))])] (by decide)

/-- `criterion` in terms of the penalty value and the classification term:
when the penalty loop succeeds with value `r`, the loss is
`(lamb * r if t > 0 else 0) + classification`. -/
lemma criterion_eq (ce : List (List ℚ) → List ℤ → ℚ) (t : ℕ) (lamb : ℚ)
    (fisher older params : ParamMap) (numExemplars : ℕ)
    (outputs : List (List (List ℚ))) (targets : List ℤ)
    (task_offset : List ℤ) (r : ℚ)
    (h : ewcPenalty fisher older params = some r) :
    criterion ce t lamb fisher older params numExemplars outputs targets
        task_offset
      = some ((if 0 < t then lamb * r else 0)
          + classTerm ce t numExemplars outputs targets task_offset) := by
  by_cases ht : 0 < t <;> by_cases hx : 0 < numExemplars <;>
    simp [criterion, classTerm, h, ht, hx]

/-- C1: for `t > 0` the loss returned by `criterion` is the classification
term plus `lamb * (1/2) * sum over backbone parameters of
importance * (current - snapshot)^2`; with `lamb = 1000` and two backbone
parameters of importance `4` and drift `1` the added penalty is `4000`;
and for `t = 0` the penalty term is absent. -/
theorem claim1_quadratic_penalty :
    (∀ (ce : List (List ℚ) → List ℤ → ℚ) (lamb : ℚ) (E : TripleEntries)
        (t numExemplars : ℕ) (outputs : List (List (List ℚ)))
        (targets : List ℤ) (task_offset : List ℤ),
      0 < t → NamesNodup E →
      criterion ce t lamb (fisherOf3 E) (olderOf3 E) (paramsOf3 E)
          numExemplars outputs targets task_offset
        = some (lamb * ((E.map (fun e =>
              (e.2.map (fun z => z.1 * (z.2.1 - z.2.2) ^ 2)).sum)).sum / 2)
            + classTerm ce t numExemplars outputs targets task_offset))
    ∧ (∀ (ce : List (List ℚ) → List ℤ → ℚ) (outputs : List (List (List ℚ)))
        (targets : List ℤ) (task_offset : List ℤ),
      criterion ce 1 1000
          (fisherOf3 [("w0", [((4 : ℚ), (1 : ℚ), (0 : ℚ))]),
                      ("w1", [((4 : ℚ), (1 : ℚ), (0 : ℚ))])])
          (olderOf3 [("w0", [((4 : ℚ), (1 : ℚ), (0 : ℚ))]),
                     ("w1", [((4 : ℚ), (1 : ℚ), (0 : ℚ))])])
          (paramsOf3 [("w0", [((4 : ℚ), (1 : ℚ), (0 : ℚ))]),
                      ("w1", [((4 : ℚ), (1 : ℚ), (0 : ℚ))])])
          0 outputs targets task_offset
        = some (4000 + classTerm ce 1 0 outputs targets task_offset))
    ∧ (∀ (ce : List (List ℚ) → List ℤ → ℚ) (lamb : ℚ)
        (fisher older params : ParamMap) (numExemplars : ℕ)
        (outputs : List (List (List ℚ))) (targets : List ℤ)
        (task_offset : List ℤ),
      criterion ce 0 lamb fisher older params numExemplars outputs targets
          task_offset
        = some (classTerm ce 0 numExemplars outputs targets task_offset)) := by
  have hgen : ∀ (ce : List (List ℚ) → List ℤ → ℚ) (lamb : ℚ)
      (E : TripleEntries) (t numExemplars : ℕ)
      (outputs : List (List (List ℚ))) (targets : List ℤ)
      (task_offset : List ℤ), 0 < t → NamesNodup E →
      criterion ce t lamb (fisherOf3 E) (olderOf3 E) (paramsOf3 E)
          numExemplars outputs targets task_offset
        = some (lamb * ((E.map (fun e =>
              (e.2.map (fun z => z.1 * (z.2.1 - z.2.2) ^ 2)).sum)).sum / 2)
            + classTerm ce t numExemplars outputs targets task_offset) := by
    intro ce lamb E t numExemplars outputs targets task_offset ht hE
    have hpen := ewcPenalty_aligned (fisherOf3 E) (olderOf3 E) E
      (fun e he => ⟨lookup_fisherOf3 E hE e he, lookup_olderOf3 E hE e he⟩)
    rw [criterion_eq ce t lamb _ _ _ numExemplars outputs targets task_offset
      _ hpen, if_pos ht]
  refine ⟨hgen, ?_, ?_⟩
  · intro ce outputs targets task_offset
    have h := hgen ce 1000
      [("w0", [((4 : ℚ), (1 : ℚ), (0 : ℚ))]),
       ("w1", [((4 : ℚ), (1 : ℚ), (0 : ℚ))])]
      1 0 outputs targets task_offset (by decide) (by decide)
    norm_num at h ⊢
    exact h
  · intro ce lamb fisher older params numExemplars outputs targets task_offset
    by_cases hx : 0 < numExemplars <;> simp [criterion, classTerm, hx]

theorem claim1_quadratic_penalty_witness :
    criterion (fun _ _ => (0 : ℚ)) 1 2
        (fisherOf3 [("a", [((1 : ℚ), (2 : ℚ), (3 : ℚ))])])
        (olderOf3 [("a", [((1 : ℚ), (2 : ℚ), (3 : ℚ))])])
        (paramsOf3 [("a", [((1 : ℚ), (2 : ℚ), (3 : ℚ))])]) 0 [] [] []
      = some (2 * ((([("a", [((1 : ℚ), (2 : ℚ), (3 : ℚ))])] : TripleEntries).map
            (fun e => (e.2.map (fun z => z.1 * (z.2.1 - z.2.2) ^ 2)).sum)).sum / 2)
          + classTerm (fun _ _ => (0 : ℚ)) 1 0 [] [] []) :=
  claim1_quadratic_penalty.1 (fun _ _ => (0 : ℚ)) 2
    [("a", [((1 : ℚ), (2 : ℚ), (3 : ℚ))])] 1 0 [] [] []
    (by decide) (by decide)

/-- C5: the classification term of `criterion` is cross-entropy over all
concatenated head outputs against the raw targets when any exemplars are
stored, and otherwise cross-entropy of `outputs[t]` against the targets
shifted down by `task_offset[t]`. -/
theorem claim5_classification_term (ce : List (List ℚ) → List ℤ → ℚ)
    (t : ℕ) (lamb : ℚ) (fisher older params : ParamMap) (numExemplars : ℕ)
    (outputs : List (List (List ℚ))) (targets : List ℤ)
    (task_offset : List ℤ) (r : ℚ)
    (h : ewcPenalty fisher older params = some r) :
    criterion ce t lamb fisher older params numExemplars outputs targets
        task_offset
      = some ((if 0 < t then lamb * r else 0) +
          (if 0 < numExemplars then ce (catDim1 outputs) targets
           else ce (outputs.getD t [])
             (targets.map (fun y => y - task_offset.getD t 0)))) := by
  rw [criterion_eq ce t lamb fisher older params numExemplars outputs targets
    task_offset r h]
  rfl

theorem claim5_classification_term_witness :
    criterion (fun _ _ => (7 : ℚ)) 0 5 [] [] [] 1 [] [] [] = some (0 + 7) :=
  claim5_classification_term (fun _ _ => (7 : ℚ)) 0 5 [] [] [] 1 [] [] [] 0
    rfl

/-- C8 as stated is false: `criterion` guards the penalty loop with
`if n in self.fisher.keys()`, so a live-model backbone parameter whose
name is absent from the Importance Map is silently skipped — the key-set
mismatch below returns a loss instead of a fatal error. -/
theorem claim8_counterexample :
    criterion (fun _ _ => (0 : ℚ)) 1 1 [("a", [(1 : ℚ)])] [("a", [(0 : ℚ)])]
        [("a", [(0 : ℚ)]), ("b", [(5 : ℚ)])] 0 [[[1]]] [0] [0] = some 0
    ∧ ([("a", [(0 : ℚ)]), ("b", [(5 : ℚ)])] : ParamMap).map (fun e => e.1)
        ≠ ([("a", [(1 : ℚ)])] : ParamMap).map (fun e => e.1) := by
  constructor
  · simp [criterion, ewcPenalty, entryPenalty, bcast2, List.lookup]
  · decide

/-- C8 amended: mismatches are not, in general, fatal.  A parameter name
present in the Importance Map but missing from the Snapshot makes
`criterion` raise (return `none`); but a parameter absent from the
Importance Map is skipped silently, contributing nothing to the penalty,
and a broadcastable shape mismatch between matched entries — here a
length-1 stored tensor against a 3-element live parameter — is silently
broadcast, so `criterion` returns a loss (`lamb * (2*1 + 2*4 + 2*9)/2
= 14` with `lamb = 1`) instead of raising. -/
theorem claim8_mismatch_behaviour :
    (∀ (ce : List (List ℚ) → List ℤ → ℚ) (t : ℕ) (lamb : ℚ)
        (fisher older params : ParamMap) (numExemplars : ℕ)
        (outputs : List (List (List ℚ))) (targets : List ℤ)
        (task_offset : List ℤ) (p : String × Tensor) (f : Tensor),
      0 < t → p ∈ params → fisher.lookup p.1 = some f →
      older.lookup p.1 = none →
      criterion ce t lamb fisher older params numExemplars outputs targets
        task_offset = none)
    ∧ (∀ (fisher older : ParamMap) (n : String) (v : Tensor)
        (rest : ParamMap), fisher.lookup n = none →
      ewcPenalty fisher older ((n, v) :: rest)
        = ewcPenalty fisher older rest)
    ∧ criterion (fun _ _ => (0 : ℚ)) 1 1 [("a", [(2 : ℚ)])]
        [("a", [(0 : ℚ), 0, 0])] [("a", [(1 : ℚ), 2, 3])] 0 [] [] []
        = some 14
    ∧ ([(2 : ℚ)] : Tensor).length ≠ ([(1 : ℚ), 2, 3] : Tensor).length := by
  refine ⟨?_, ?_, ?_, by decide⟩
  · intro ce t lamb fisher older params numExemplars outputs targets
      task_offset p f ht hp hf ho
    have hpen : ewcPenalty fisher older params = none := by
      clear ht
      induction params with
      | nil => exact absurd hp (List.not_mem_nil p)
      | cons a rest ih =>
        rcases List.mem_cons.mp hp with rfl | hp'
        · conv_lhs => unfold ewcPenalty
          rw [hf, ho]
        · conv_lhs => unfold ewcPenalty
          cases hfa : fisher.lookup a.1 with
          | none => exact ih hp'
          | some fa =>
            cases hoa : older.lookup a.1 with
            | none => rfl
            | some oa =>
              show (match entryPenalty fa a.2 oa with
                | none => none
                | some s =>
                  (ewcPenalty fisher older rest).map (fun r => s + r)) = none
              cases het : entryPenalty fa a.2 oa with
              | none => rfl
              | some s =>
                show (ewcPenalty fisher older rest).map (fun r => s + r)
                  = none
                rw [ih hp']
                rfl
    simp [criterion, hpen, ht]
  · intro fisher older n v rest hn
    conv_lhs => unfold ewcPenalty
    rw [hn]
  · norm_num [criterion, ewcPenalty, entryPenalty, bcast2, List.lookup]

theorem claim8_mismatch_behaviour_witness :
    criterion (fun _ _ => (0 : ℚ)) 1 1 [("a", [(1 : ℚ)])] []
      [("a", [(0 : ℚ)])] 0 [] [] [] = none :=
  claim8_mismatch_behaviour.1 (fun _ _ => (0 : ℚ)) 1 1 [("a", [(1 : ℚ)])] []
    [("a", [(0 : ℚ)])] 0 [] [] [] ("a", [(0 : ℚ)]) [(1 : ℚ)]
    (by decide) (by decide) (by decide) (by decide)

/-- A successful association-list lookup comes from a member. -/
lemma lookup_mem {β : Type} : ∀ (l : List (String × β)) (k : String) (v : β),
    l.lookup k = some v → (k, v) ∈ l
  | [], k, v, h => by simp [List.lookup] at h
  | a :: l, k, v, h => by
    unfold List.lookup at h
    cases hk : k == a.1 with
    | true =>
      rw [hk] at h
      have hv : a.2 = v := by simpa using h
      have hkk : k = a.1 := eq_of_beq hk
      rw [hkk, ← hv]
      exact List.mem_cons_self _ _
    | false =>
      rw [hk] at h
      exact List.mem_cons_of_mem a (lookup_mem l k v h)

/-- C4 as stated is false in the non-positive-budget case: the code
consumes `len(dataset) // batch_size` batches, not the loader's batch
count.  The default loader over 5 examples with batch size 2 yields 3
batches, but the estimator consumes only 2 of them, skipping the final
partial batch (so it does not see the entire dataset either). -/
theorem claim4_counterexample :
    IsDefaultLoader ⟨[2, 2, 1], 2, 5⟩
    ∧ (Loader.mk [2, 2, 1] 2 5).batches.length = 3
    ∧ fisherBatchesConsumed (-1) ⟨[2, 2, 1], 2, 5⟩ = 2
    ∧ fisherBatchesConsumed (-1) ⟨[2, 2, 1], 2, 5⟩
        ≠ (Loader.mk [2, 2, 1] 2 5).batches.length := by
  refine ⟨by decide, rfl, rfl, by decide⟩

/-- C4 amended: with a positive budget the estimator consumes
`floor(budget / batch_size) + 1` batches provided the loader has at least
that many (e.g. exactly 4 for `budget = 3 * batch_size + 1` with
`batch_size = 2`); with a non-positive budget it consumes
`floor(len(dataset) / batch_size)` batches — the loader's full batch count
only when the batch size divides the dataset length; and the accumulated
squared gradients are divided by the PLANNED batch count times the batch
size (`fisherDivisor`), not by the consumed count. -/
theorem claim4_batch_counts :
    (∀ (ns : ℤ) (L : Loader), 0 < ns →
      n_samples_batches ns L.batch_size L.dataset_len ≤ L.batches.length →
      fisherBatchesConsumed ns L = ns.toNat / L.batch_size + 1)
    ∧ (∀ (ns : ℤ) (L : Loader), ns ≤ 0 → IsDefaultLoader L →
        0 < L.batch_size →
        fisherBatchesConsumed ns L = L.dataset_len / L.batch_size)
    ∧ fisherBatchesConsumed 7 ⟨[2, 2, 2, 2, 2], 2, 10⟩ = 4
    ∧ (∀ (ns : ℤ) (L : Loader),
        fisherDivisor ns L
          = n_samples_batches ns L.batch_size L.dataset_len * L.batch_size)
    ∧ (∀ (gradFn : ParamMap → ℕ → ParamMap) (ns : ℤ) (L : Loader)
        (st : ModelState),
        (compute_fisher_matrix_diag gradFn ns L st).2
          = (fisherLoop gradFn { st with training := true }
              (fisherInit st.params)
              (L.batches.take (n_samples_batches ns L.batch_size
                L.dataset_len)).enum).2.map
            (fun nf =>
              (nf.1, nf.2.map (fun x => x / (fisherDivisor ns L : ℚ))))) := by
  refine ⟨?_, ?_, rfl, fun _ _ => rfl, fun _ _ _ _ => rfl⟩
  · intro ns L hns hle
    unfold fisherBatchesConsumed
    rw [List.length_take]
    unfold n_samples_batches at hle ⊢
    rw [if_pos hns] at hle ⊢
    exact Nat.min_eq_left hle
  · intro ns L hns hdef hbs
    unfold fisherBatchesConsumed n_samples_batches
    have hns' : ¬ 0 < ns := by omega
    rw [if_neg hns', List.length_take, hdef.2.1]
    apply Nat.min_eq_left
    apply Nat.div_le_div_right
    omega

theorem claim4_batch_counts_witness :
    fisherBatchesConsumed 7 ⟨[2, 2, 2, 2, 2], 2, 10⟩ = (7 : ℤ).toNat / 2 + 1
    ∧ fisherBatchesConsumed (-1) ⟨[2, 2, 1], 2, 5⟩ = 5 / 2 :=
  ⟨claim4_batch_counts.1 7 ⟨[2, 2, 2, 2, 2], 2, 10⟩ (by decide) (by decide),
   claim4_batch_counts.2.1 (-1) ⟨[2, 2, 1], 2, 5⟩ (by decide) (by decide)
     (by decide)⟩

/-- The batch loop of the estimator never writes the parameter values:
each step only overwrites the gradient buffers and the fisher accumulator. -/
lemma fisherLoop_params (gradFn : ParamMap → ℕ → ParamMap) :
    ∀ (l : List (ℕ × ℕ)) (st : ModelState) (fisher : ParamMap),
      (fisherLoop gradFn st fisher l).1.params = st.params
  | [], _, _ => rfl
  | _ :: rest, _st, _fisher => fisherLoop_params gradFn rest _ _

/-- Inverting a successful `post_train_process`: the snapshot is the
pre-call parameters, the final state is the estimator's final state, and
the fused map came out of `fuseFisher`. -/
lemma post_train_some (selfAlpha : ℚ) (t : ℕ) (task_cls : List ℕ)
    (gradFn : ParamMap → ℕ → ParamMap) (num_samples : ℤ) (L : Loader)
    (st : ModelState) (fisher : ParamMap) (snap : ParamMap)
    (st2 : ModelState) (fisher2 : ParamMap)
    (h : post_train_process selfAlpha t task_cls gradFn num_samples L st
        fisher = some (snap, st2, fisher2)) :
    snap = st.params
    ∧ st2 = (compute_fisher_matrix_diag gradFn num_samples L st).1
    ∧ fuseFisher selfAlpha t task_cls
        (compute_fisher_matrix_diag gradFn num_samples L st).2 fisher
      = some fisher2 := by
  simp only [post_train_process] at h
  cases hfu : fuseFisher selfAlpha t task_cls
      (compute_fisher_matrix_diag gradFn num_samples L st).2 fisher with
  | none => rw [hfu] at h; simp at h
  | some f2 =>
    rw [hfu] at h
    simp only [Option.some.injEq, Prod.mk.injEq] at h
    obtain ⟨h1, h2, h3⟩ := h
    exact ⟨h1.symm, h2.symm, congrArg some h3⟩

/-- C6: Fisher estimation is read-only with respect to the parameter
values (only gradient buffers and the train-mode flag change), and the
Snapshot is refreshed from the backbone parameters before the estimator
runs; hence immediately after `post_train_process` the snapshot equals the
live parameters — every drift `current - snapshot` is zero. -/
theorem claim6_snapshot_equals_params (selfAlpha : ℚ) (t : ℕ)
    (task_cls : List ℕ) (gradFn : ParamMap → ℕ → ParamMap)
    (num_samples : ℤ) (L : Loader) (st : ModelState) (fisher : ParamMap)
    (snap : ParamMap) (st2 : ModelState) (fisher2 : ParamMap)
    (h : post_train_process selfAlpha t task_cls gradFn num_samples L st
        fisher = some (snap, st2, fisher2)) :
    st2.params = st.params ∧ snap = st2.params
    ∧ (∀ n : String, st2.params.lookup n = snap.lookup n) := by
  obtain ⟨h1, h2, _⟩ := post_train_some selfAlpha t task_cls gradFn
    num_samples L st fisher snap st2 fisher2 h
  have hp : (compute_fisher_matrix_diag gradFn num_samples L st).1.params
      = st.params := fisherLoop_params gradFn _ _ _
  have hst2 : st2.params = st.params := by rw [h2]; exact hp
  exact ⟨hst2, by rw [h1, hst2], fun n => by rw [h1, hst2]⟩

set_option maxRecDepth 4000 in
theorem claim6_snapshot_equals_params_witness :
    (⟨[], [], true⟩ : ModelState).params
        = (⟨[], [], false⟩ : ModelState).params
    ∧ ([] : ParamMap) = (⟨[], [], true⟩ : ModelState).params
    ∧ (∀ n : String, (⟨[], [], true⟩ : ModelState).params.lookup n
        = ([] : ParamMap).lookup n) := by
  have h : post_train_process (1/2) 0 [2] (fun p _ => p) (-1) ⟨[], 1, 0⟩
      ⟨[], [], false⟩ [] = some ([], ⟨[], [], true⟩, []) := rfl
  exact claim6_snapshot_equals_params (1/2) 0 [2] (fun p _ => p) (-1)
    ⟨[], 1, 0⟩ ⟨[], [], false⟩ [] [] ⟨[], [], true⟩ [] h

/-- C7 as stated is false at its "very first update" exception: the fusion
loop runs identically at every update, so with the default fixed
`alpha = 0.5` the very first fusion of the all-zero initial map with a
fresh estimate `[2]` yields `[1]`, which is not the fresh estimate — the
map is never replaced outright. -/
theorem claim7_counterexample :
    fisherInit [("a", [(3 : ℚ)])] = [("a", [(0 : ℚ)])]
    ∧ fuseFisher (1/2) 0 [2] [("a", [(2 : ℚ)])] [("a", [(0 : ℚ)])]
        = some [("a", [(1 : ℚ)])]
    ∧ some [("a", [(1 : ℚ)])] ≠ some [("a", [(2 : ℚ)])] := by
  refine ⟨rfl, by norm_num [fuseFisher, effAlpha, List.lookup], by norm_num⟩

/-- C7 amended: the Importance Map starts all-zero at construction; every
post-task update, including the very first, applies the same fusion
`alpha * old + (1 - alpha) * fresh` (never a reset, never an outright
replacement by assignment); since the initial map is zero, the first
update yields `(1 - alpha) * fresh` — coinciding with the fresh estimate
only when the effective weight is 0 — and the Snapshot is fully
overwritten with the current parameters after every task. -/
theorem claim7_lifecycle :
    (∀ params : ParamMap, ∀ e ∈ fisherInit params, ∀ x ∈ e.2, x = (0 : ℚ))
    ∧ (∀ (α : ℚ) (t : ℕ) (task_cls : List ℕ) (E : PairEntries),
        NamesNodup E →
        fuseFisher α t task_cls (curOf2 E) (oldOf2 E)
          = some (fusedAligned (effAlpha α t task_cls) E))
    ∧ (∀ (w : ℚ) (E : PairEntries), (∀ e ∈ E, ∀ z ∈ e.2, z.1 = 0) →
        fusedAligned w E
          = E.map (fun e => (e.1, e.2.map (fun z => (1 - w) * z.2))))
    ∧ (∀ (selfAlpha : ℚ) (t : ℕ) (task_cls : List ℕ)
        (gradFn : ParamMap → ℕ → ParamMap) (ns : ℤ) (L : Loader)
        (st : ModelState) (fisher snap : ParamMap) (st2 : ModelState)
        (fisher2 : ParamMap),
        post_train_process selfAlpha t task_cls gradFn ns L st fisher
          = some (snap, st2, fisher2) → snap = st.params) := by
  refine ⟨?_, ?_, ?_, ?_⟩
  · intro params e he x hx
    rcases List.mem_map.mp he with ⟨np, _, rfl⟩
    rcases List.mem_map.mp hx with ⟨y, _, rfl⟩
    rfl
  · intro α t task_cls E hE
    exact fuseFisher_aligned α t task_cls (curOf2 E) E
      (fun e he => lookup_curOf2 E hE e he)
  · intro w E hz
    unfold fusedAligned
    apply List.map_congr_left
    intro e he
    have hin : e.2.map (fun z => w * z.1 + (1 - w) * z.2)
        = e.2.map (fun z => (1 - w) * z.2) :=
      List.map_congr_left (fun z hzz => by rw [hz e he z hzz]; ring)
    rw [hin]
  · intro selfAlpha t task_cls gradFn ns L st fisher snap st2 fisher2 h
    exact (post_train_some selfAlpha t task_cls gradFn ns L st fisher snap
      st2 fisher2 h).1

theorem claim7_lifecycle_witness :
    fuseFisher (1/2) 1 [2, 3] (curOf2 [("a", [((0 : ℚ), (2 : ℚ))])])
        (oldOf2 [("a", [((0 : ℚ), (2 : ℚ))])])
      = some (fusedAligned (effAlpha (1/2) 1 [2, 3])
          [("a", [((0 : ℚ), (2 : ℚ))])])
    ∧ ([] : ParamMap) = (⟨[], [], false⟩ : ModelState).params := by
  constructor
  · exact claim7_lifecycle.2.1 (1/2) 1 [2, 3]
      [("a", [((0 : ℚ), (2 : ℚ))])] (by decide)
  · have h : post_train_process 1 3 [4] (fun p _ => p) (-1) ⟨[], 1, 0⟩
        ⟨[], [], false⟩ [] = some ([], ⟨[], [], true⟩, []) := rfl
    exact claim7_lifecycle.2.2.2 1 3 [4] (fun p _ => p) (-1) ⟨[], 1, 0⟩
      ⟨[], [], false⟩ [] [] ⟨[], [], true⟩ [] h

/-- C9: the claim is right and line 95 of the code is wrong.
`torch.multinomial(probs, len(targets))` draws `len(targets)` samples from
EVERY row of the `batch × classes` probability matrix, so a batch of 2
examples (2 rows of concatenated logits, 2 targets) yields 2 × 2 = 4
flattened pseudo-labels instead of one per example, and the subsequent
`cross_entropy(cat(outputs), preds)` at line 97 then fails on the target
size 4 ≠ 2 for any batch of at least 2. -/
theorem claim9_multinomial_bug :
    (catDim1 [[[(1 : ℚ), 2], [3, 4]], [[5, 6], [7, 8]]]).length = 2
    ∧ ([(0 : ℤ), 1]).length = 2
    ∧ (multinomialPreds (fun _ _ => 0)
          (catDim1 [[[(1 : ℚ), 2], [3, 4]], [[5, 6], [7, 8]]]).length
          ([(0 : ℤ), 1]).length).length = 2 * 2
    ∧ (multinomialPreds (fun _ _ => 0)
          (catDim1 [[[(1 : ℚ), 2], [3, 4]], [[5, 6], [7, 8]]]).length
          ([(0 : ℤ), 1]).length).length
        ≠ ([(0 : ℤ), 1]).length :=
  ⟨rfl, rfl, rfl, by decide⟩

/-- The zero-initialised accumulator is non-negative. -/
lemma fisherInit_nonneg (params : ParamMap) : MapNonneg (fisherInit params) := by
  intro e he x hx
  rcases List.mem_map.mp he with ⟨np, _, rfl⟩
  rcases List.mem_map.mp hx with ⟨y, _, rfl⟩
  exact le_refl 0

/-- One accumulation step `fisher[n] += grad^2 * len(targets)` preserves
non-negativity: the increment is a square times a natural number. -/
lemma accumFisher_nonneg (fisher grads : ParamMap) (nTargets : ℕ)
    (hf : MapNonneg fisher) : MapNonneg (accumFisher fisher grads nTargets) := by
  intro e he x hx
  rcases List.mem_map.mp he with ⟨nf, hnf, rfl⟩
  cases hg : grads.lookup nf.1 with
  | none =>
    rw [hg] at hx
    exact hf nf hnf x hx
  | some g =>
    rw [hg] at hx
    rcases List.mem_map.mp hx with ⟨z, hz, rfl⟩
    have h1 : 0 ≤ z.1 := hf nf hnf z.1 (List.of_mem_zip hz).1
    exact add_nonneg h1 (mul_nonneg (sq_nonneg z.2) (Nat.cast_nonneg nTargets))

/-- The whole batch loop preserves non-negativity of the accumulator. -/
lemma fisherLoop_nonneg (gradFn : ParamMap → ℕ → ParamMap) :
    ∀ (l : List (ℕ × ℕ)) (st : ModelState) (fisher : ParamMap),
      MapNonneg fisher → MapNonneg (fisherLoop gradFn st fisher l).2
  | [], _, _, h => h
  | _ :: rest, _st, _fisher, h =>
    fisherLoop_nonneg gradFn rest _ _ (accumFisher_nonneg _ _ _ h)

/-- The freshly estimated Fisher map is entry-wise non-negative: a mean of
squared gradients weighted by batch sizes. -/
lemma compute_fisher_nonneg (gradFn : ParamMap → ℕ → ParamMap)
    (num_samples : ℤ) (L : Loader) (st : ModelState) :
    MapNonneg (compute_fisher_matrix_diag gradFn num_samples L st).2 := by
  intro e he x hx
  simp only [compute_fisher_matrix_diag] at he
  rcases List.mem_map.mp he with ⟨nf, hnf, rfl⟩
  rcases List.mem_map.mp hx with ⟨y, hy, rfl⟩
  have hnn := fisherLoop_nonneg gradFn _ _ _
    (fisherInit_nonneg st.params) nf hnf y hy
  exact div_nonneg hnn (Nat.cast_nonneg _)

/-- The effective fusion weight lies in `[0, 1]` whenever the configured
alpha does, or when the class-proportional sentinel is configured (the
prefix class count never exceeds the total). -/
lemma effAlpha_mem (selfAlpha : ℚ) (t : ℕ) (task_cls : List ℕ)
    (hα : (0 ≤ selfAlpha ∧ selfAlpha ≤ 1) ∨ selfAlpha = -1) :
    0 ≤ effAlpha selfAlpha t task_cls ∧ effAlpha selfAlpha t task_cls ≤ 1 := by
  unfold effAlpha
  rcases hα with ⟨h0, h1⟩ | hs
  · rw [if_neg (by intro hc; rw [hc] at h0; norm_num at h0)]
    exact ⟨h0, h1⟩
  · rw [if_pos hs]
    have hA : 0 ≤ ((task_cls.take t).map (fun k : ℕ => (k : ℚ))).sum :=
      List.sum_nonneg (by
        intro x hx
        rcases List.mem_map.mp hx with ⟨k, _, rfl⟩
        exact Nat.cast_nonneg k)
    have hD : 0 ≤ ((task_cls.drop t).map (fun k : ℕ => (k : ℚ))).sum :=
      List.sum_nonneg (by
        intro x hx
        rcases List.mem_map.mp hx with ⟨k, _, rfl⟩
        exact Nat.cast_nonneg k)
    have hT : ((task_cls.take t).map (fun k : ℕ => (k : ℚ))).sum
        ≤ (task_cls.map (fun k : ℕ => (k : ℚ))).sum := by
      conv_rhs => rw [← List.take_append_drop t task_cls]
      rw [List.map_append, List.sum_append]
      linarith
    rcases eq_or_lt_of_le (le_trans hA hT) with hT0 | hTpos
    · rw [← hT0, div_zero]
      norm_num
    · exact ⟨div_nonneg hA (le_of_lt hTpos), (div_le_one hTpos).mpr hT⟩

/-- Inverting one successful step of the fusion loop. -/
lemma fuseFisher_cons_some (selfAlpha : ℚ) (t : ℕ) (task_cls : List ℕ)
    (curr : ParamMap) (nf : String × Tensor) (rest f2 : ParamMap)
    (h : fuseFisher selfAlpha t task_cls curr (nf :: rest) = some f2) :
    ∃ c restRes, curr.lookup nf.1 = some c ∧ nf.2.length = c.length ∧
      fuseFisher selfAlpha t task_cls curr rest = some restRes ∧
      f2 = (nf.1, (nf.2.zip c).map (fun z =>
        effAlpha selfAlpha t task_cls * z.1
          + (1 - effAlpha selfAlpha t task_cls) * z.2)) :: restRes := by
  unfold fuseFisher at h
  split at h
  · exact absurd h (by simp)
  · next c hcl =>
    split at h
    · next hlen =>
      split at h
      · next restRes hrec =>
        exact ⟨c, restRes, hcl, hlen, hrec, (Option.some.injEq _ _ ▸ h).symm⟩
      · exact absurd h (by simp)
    · exact absurd h (by simp)

/-- Fusion with an effective weight in `[0, 1]` preserves entry-wise
non-negativity of the Importance Map. -/
lemma fuseFisher_nonneg (selfAlpha : ℚ) (t : ℕ) (task_cls : List ℕ)
    (curr : ParamMap)
    (hw : 0 ≤ effAlpha selfAlpha t task_cls
        ∧ effAlpha selfAlpha t task_cls ≤ 1)
    (hc : MapNonneg curr) :
    ∀ (fisher f2 : ParamMap), MapNonneg fisher →
      fuseFisher selfAlpha t task_cls curr fisher = some f2 → MapNonneg f2
  | [], f2, _, h => by
    have h' : ([] : ParamMap) = f2 := Option.some.inj h
    subst h'
    intro e he
    exact absurd he (List.not_mem_nil e)
  | nf :: rest, f2, hf, h => by
    rcases fuseFisher_cons_some selfAlpha t task_cls curr nf rest f2 h
      with ⟨c, restRes, hcl, _, hrec, rfl⟩
    have hrest := fuseFisher_nonneg selfAlpha t task_cls curr hw hc rest
      restRes (fun e he x hx => hf e (List.mem_cons_of_mem nf he) x hx) hrec
    intro e he x hx
    rcases List.mem_cons.mp he with rfl | he'
    · rcases List.mem_map.mp hx with ⟨z, hz, rfl⟩
      have h1 : 0 ≤ z.1 :=
        hf nf (List.mem_cons_self nf rest) z.1 (List.of_mem_zip hz).1
      have h2 : 0 ≤ z.2 :=
        hc (nf.1, c) (lookup_mem curr nf.1 c hcl) z.2 (List.of_mem_zip hz).2
      exact add_nonneg (mul_nonneg hw.1 h1)
        (mul_nonneg (by linarith [hw.2]) h2)
    · exact hrest e he' x hx

/-- C10: every entry of the Importance Map is element-wise non-negative at
all times, provided the configured alpha lies in `[0, 1]` or equals the
`-1` sentinel: the map starts all-zero, a freshly estimated map is
non-negative (squared gradients weighted by batch sizes, divided by a
non-negative sample count — kept positive by the caller per the error
model), and fusion with an effective weight in `[0, 1]` preserves
non-negativity at every update. -/
theorem claim10_importance_nonneg :
    (∀ params : ParamMap, MapNonneg (fisherInit params))
    ∧ (∀ (gradFn : ParamMap → ℕ → ParamMap) (ns : ℤ) (L : Loader)
        (st : ModelState), 0 < fisherDivisor ns L →
        MapNonneg (compute_fisher_matrix_diag gradFn ns L st).2)
    ∧ (∀ (selfAlpha : ℚ) (t : ℕ) (task_cls : List ℕ)
        (fisher curr f2 : ParamMap),
        ((0 ≤ selfAlpha ∧ selfAlpha ≤ 1) ∨ selfAlpha = -1) →
        MapNonneg fisher → MapNonneg curr →
        fuseFisher selfAlpha t task_cls curr fisher = some f2 →
        MapNonneg f2) := by
  refine ⟨fisherInit_nonneg, ?_, ?_⟩
  · intro gradFn ns L st _
    exact compute_fisher_nonneg gradFn ns L st
  · intro selfAlpha t task_cls fisher curr f2 hα hf hc h
    exact fuseFisher_nonneg selfAlpha t task_cls curr
      (effAlpha_mem selfAlpha t task_cls hα) hc fisher f2 hf h

theorem claim10_importance_nonneg_witness :
    MapNonneg (compute_fisher_matrix_diag (fun p _ => p) 2 ⟨[2], 2, 4⟩
        ⟨[("a", [(3 : ℚ)])], [], false⟩).2
    ∧ MapNonneg [("a", [(1 : ℚ)])] := by
  constructor
  · exact claim10_importance_nonneg.2.1 (fun p _ => p) 2 ⟨[2], 2, 4⟩
      ⟨[("a", [(3 : ℚ)])], [], false⟩ (by decide)
  · have h : fuseFisher (1/2) 0 [2] [("a", [(2 : ℚ)])] [("a", [(0 : ℚ)])]
        = some [("a", [(1 : ℚ)])] := by
      norm_num [fuseFisher, effAlpha, List.lookup]
    exact claim10_importance_nonneg.2.2 (1/2) 0 [2] [("a", [(0 : ℚ)])]
      [("a", [(2 : ℚ)])] [("a", [(1 : ℚ)])]
      (Or.inl ⟨by norm_num, by norm_num⟩) (by decide) (by decide) h

end OEWC
